import Mathlib

/-!
Verification development for the YT-source-hunter acquisition-and-scoring
pipeline.  Text is embedded as `List Char`; offsets are character indices
(all inputs of interest are ASCII, where JS UTF-16 offsets coincide with
character counts).  Each definition is a shallow embedding of the
correspondingly named function of the repository's source.
-/

namespace SrcHunter

/-! ### Character classes used by the scoring regexes

`isWsCh` embeds the JS `\s` class, `isNlCh` the set of line terminators
that `.` refuses to match, `isSepCh` the `[:=-]` class of the SOURCE
pattern, `isUpperCh`/`isLowerCh` the `[A-Z]`/`[a-z]` classes. -/

def isWsCh (c : Char) : Bool :=
  let n := c.toNat
  n = 32 || n = 9 || n = 10 || n = 11 || n = 12 || n = 13 ||
  n = 0xa0 || n = 0x1680 || (0x2000 ≤ n && n ≤ 0x200a) ||
  n = 0x2028 || n = 0x2029 || n = 0x202f || n = 0x205f || n = 0x3000 || n = 0xfeff

def isNlCh (c : Char) : Bool :=
  let n := c.toNat
  n = 10 || n = 13 || n = 0x2028 || n = 0x2029

def isSepCh (c : Char) : Bool :=
  c = ':' || c = '=' || c = '-'

def isUpperCh (c : Char) : Bool :=
  let n := c.toNat
  65 ≤ n && n ≤ 90

def isLowerCh (c : Char) : Bool :=
  let n := c.toNat
  97 ≤ n && n ≤ 122

/-- Lower-casing used by the case-insensitive `/i` flag (ASCII letters). -/
def lowerCh (c : Char) : Char :=
  if isUpperCh c then Char.ofNat (c.toNat + 32) else c

/-- Length of the maximal leading run of `\s` characters. -/
def countWs : List Char → Nat
  | [] => 0
  | c :: r => if isWsCh c then countWs r + 1 else 0

/-- Length of the maximal leading run of characters matched by `.`
(everything except line terminators): the extent of a greedy `(.+)`. -/
def countNonNl : List Char → Nat
  | [] => 0
  | c :: r => if isNlCh c then 0 else countNonNl r + 1

/-- Length of the maximal leading run of `[a-z]` characters. -/
def countLower : List Char → Nat
  | [] => 0
  | c :: r => if isLowerCh c then countLower r + 1 else 0

/-- Test that `p` occurs at the head of `t` (case-sensitive literal). -/
def seqAtB (p t : List Char) : Bool :=
  decide (p = t.take p.length)

/-- Test that `p` occurs at the head of `t` up to ASCII case. -/
def ciAtB (p t : List Char) : Bool :=
  decide (p = (t.take p.length).map lowerCh)

/-- Index of the first (case-sensitive) occurrence of `pat` in `t`,
embedding JS `String.prototype.indexOf`. -/
def idxOf (pat : List Char) : List Char → Option Nat
  | [] => if pat.isEmpty then some 0 else none
  | c :: r => if seqAtB pat (c :: r) then some 0 else (idxOf pat r).map (· + 1)

/-! ### The SOURCE pattern

`/(name|source|sauce|anime|movie|title|track|song)\s*[:=-]\s*(.+)/i`. -/

/-- The alternation of labels of the SOURCE pattern, in source order. -/
def srcLabels : List (List Char) :=
  ["name".toList, "source".toList, "sauce".toList, "anime".toList,
   "movie".toList, "title".toList, "track".toList, "song".toList]

/-- First label of the alternation matching at the head of `t`
(case-insensitively). -/
def findLabel : List (List Char) → List Char → Option (List Char)
  | [], _ => none
  | L :: Ls, t => if ciAtB L t then some L else findLabel Ls t

/-- Greatest index of a character that `.` accepts (used by `srcTail`
only when the whole of its input is whitespace). -/
def lastNonNlIdx : List Char → Option Nat
  | [] => none
  | c :: r =>
    match lastNonNlIdx r with
    | some k => some (k + 1)
    | none => if isNlCh c then none else some 0

/-- Match `\s*(.+)` against `t2`: returns the number of `\s` characters
consumed and the length of the greedy `(.+)` group.  The greedy `\s*`
first swallows the maximal whitespace run; if nothing is left for `(.+)`
the engine backtracks to the last character of the run that `.` accepts. -/
def srcTail (t2 : List Char) : Option (Nat × Nat) :=
  let j0 := countWs t2
  match t2.drop j0 with
  | _ :: _ => some (j0, countNonNl (t2.drop j0))
  | [] =>
    match lastNonNlIdx t2 with
    | some j => some (j, countNonNl (t2.drop j))
    | none => none

/-- Attempt the SOURCE pattern anchored at the head of `t`; on success
returns the full match and the captured group 2 (the value). -/
def trySourceAt (t : List Char) : Option (List Char × List Char) :=
  match findLabel srcLabels t with
  | none => none
  | some L =>
    let t1 := t.drop L.length
    let k := countWs t1
    match t1.drop k with
    | [] => none
    | sep :: t2 =>
      if isSepCh sep then
        match srcTail t2 with
        | some (j, g) =>
          some (t.take (L.length + k + 1 + j + g), (t2.drop j).take g)
        | none => none
      else none

/-- Leftmost match of the SOURCE pattern: index, full match, group 2. -/
def findSrc : List Char → Option (Nat × List Char × List Char)
  | [] => (trySourceAt []).map (fun m => (0, m))
  | c :: r =>
    match trySourceAt (c :: r) with
    | some m => some (0, m)
    | none => (findSrc r).map (fun x => (x.1 + 1, x.2))

/-! ### The HELPER pattern

The source regex is written with the apostrophe class of the original
file (an ASCII apostrophe or a right single quotation mark):
`it['...]?s\s*([A-Z][a-z]+(\s[A-Z][a-z]+)*)`; it is case-sensitive. -/

def isQuoteCh (c : Char) : Bool :=
  c = '\'' || c.toNat = 0x2019

/-- Total length consumed by the greedy star `(\s[A-Z][a-z]+)*`. -/
def helperStar (t : List Char) : Nat :=
  match t with
  | w :: d :: rest =>
    if isWsCh w && isUpperCh d && countLower rest ≠ 0 then
      2 + countLower rest + helperStar (rest.drop (countLower rest))
    else 0
  | _ => 0
termination_by t.length
decreasing_by
  simp only [List.length_drop, List.length_cons]
  omega

/-- Match `\s*([A-Z][a-z]+(\s[A-Z][a-z]+)*)` against `t3`: whitespace
consumed and length of group 1. -/
def helperTail (t3 : List Char) : Option (Nat × Nat) :=
  let k := countWs t3
  match t3.drop k with
  | d :: t5 =>
    if isUpperCh d && countLower t5 ≠ 0 then
      some (k, 1 + countLower t5 + helperStar (t5.drop (countLower t5)))
    else none
  | [] => none

/-- Attempt the HELPER pattern anchored at the head of `t`; on success
returns the full match and the captured group 1. -/
def tryHelperAt (t : List Char) : Option (List Char × List Char) :=
  match t with
  | 'i' :: 't' :: t1 =>
    match t1 with
    | q :: rest1 =>
      if isQuoteCh q then
        match rest1 with
        | 's' :: t3 =>
          match helperTail t3 with
          | some (k, g) => some (t.take (4 + k + g), (t3.drop k).take g)
          | none => none
        | _ => none
      else if q = 's' then
        match helperTail rest1 with
        | some (k, g) => some (t.take (3 + k + g), (rest1.drop k).take g)
        | none => none
      else none
    | [] => none
  | _ => none

/-- Leftmost match of the HELPER pattern: index, full match, group 1. -/
def findHelp : List Char → Option (Nat × List Char × List Char)
  | [] => (tryHelperAt []).map (fun m => (0, m))
  | c :: r =>
    match tryHelperAt (c :: r) with
    | some m => some (0, m)
    | none => (findHelp r).map (fun x => (x.1 + 1, x.2))

/-! ### The BRACKET pattern  `/\[(.*?)\]/` -/

/-- Distance to the first `]` reachable by the lazy `.*?` (no line
terminator may intervene). -/
def seekClose : List Char → Option Nat
  | [] => none
  | c :: r =>
    if c = ']' then some 0
    else if isNlCh c then none
    else (seekClose r).map (· + 1)

/-- Attempt the BRACKET pattern anchored at the head of `t`; returns the
full match length (brackets included). -/
def tryBracketAt (t : List Char) : Option Nat :=
  match t with
  | '[' :: r => (seekClose r).map (· + 2)
  | _ => none

/-- Leftmost match of the BRACKET pattern: index and full match length. -/
def findBr : List Char → Option (Nat × Nat)
  | [] => (tryBracketAt []).map (fun m => (0, m))
  | c :: r =>
    match tryBracketAt (c :: r) with
    | some m => some (0, m)
    | none => (findBr r).map (fun x => (x.1 + 1, x.2))

/-! ### The QUESTION pattern  `/(what|name|sauce)\?/i` -/

def questionWords : List (List Char) :=
  ["what".toList, "name".toList, "sauce".toList]

/-- Test whether a question word followed by `?` occurs at the head. -/
def tryQuestionAt (t : List Char) : Bool :=
  questionWords.any fun w =>
    ciAtB w t &&
      match (t.drop w.length) with
      | '?' :: _ => true
      | _ => false

/-- Test of the QUESTION pattern anywhere in the text. -/
def questionTest : List Char → Bool
  | [] => tryQuestionAt []
  | c :: r => tryQuestionAt (c :: r) || questionTest r

/-! ### analyzeComment -/

inductive HKind where
  | source
  | helper
  | bracket
deriving DecidableEq, Repr

/-- Highlight span; `stop` embeds the source field named end. -/
structure Highlight where
  start : Nat
  stop : Nat
  kind : HKind
deriving DecidableEq, Repr

structure AnalysisResult where
  score : Nat
  highlights : List Highlight
deriving DecidableEq, Repr

/-- Shallow embedding of `analyzeComment` of `src/services/analysisService.ts`:
the four heuristics evaluated in a fixed order, scores summed and capped at
100, each matching heuristic pushing a single highlight whose position is
`match.index + fullMatch.indexOf(group)`. -/
def analyzeComment (t : List Char) : AnalysisResult :=
  let srcH : Option Highlight := (findSrc t).map fun x =>
    let vs := x.1 + (idxOf x.2.2 x.2.1).getD 0
    ⟨vs, vs + x.2.2.length, HKind.source⟩
  let helpH : Option Highlight := (findHelp t).map fun x =>
    let vs := x.1 + (idxOf x.2.2 x.2.1).getD 0
    ⟨vs, vs + x.2.2.length, HKind.helper⟩
  let brH : Option Highlight := (findBr t).map fun x =>
    ⟨x.1, x.1 + x.2, HKind.bracket⟩
  let score :=
    (if (findSrc t).isSome then 80 else 0) +
    (if (findHelp t).isSome then 50 else 0) +
    (if (findBr t).isSome then 40 else 0) +
    (if questionTest t then 10 else 0)
  ⟨min score 100, srcH.toList ++ helpH.toList ++ brH.toList⟩

/-! ### Data model (src/types.ts) -/

/-- Persisted comment row; `videoId` is the container id of the spec. -/
structure Comment where
  id : String
  parentId : Option String
  videoId : String
  authorName : String
  authorProfileImageUrl : String
  textDisplay : String
  textOriginal : String
  likeCount : Nat
  replyCount : Nat
  publishedAt : String
  isSuperThanks : Bool
  isPinned : Bool
  repliesFetched : Bool
  score : Nat
deriving DecidableEq, Repr

inductive VideoScanStatus where
  | idle
  | scanningToplevel
  | scanningReplies
  | complete
deriving DecidableEq, Repr

structure VideoMetadata where
  videoId : String
  title : String
  thumbnailUrl : String
  totalComments : Nat
  lastScanned : Nat
  scanStatus : VideoScanStatus
deriving DecidableEq, Repr

inductive ScanStatus where
  | idle
  | running
  | paused
  | error
  | complete
deriving DecidableEq, Repr

inductive ScanMode where
  | smart
  | deep
deriving DecidableEq, Repr

/-- Transient scan statistics (`ScanStats` of src/types.ts). -/
structure ScanStats where
  fetchedCount : Nat
  totalEstimated : Nat
  status : ScanStatus
  mode : Option ScanMode
  error : Option String
deriving DecidableEq, Repr

/-! ### Remote responses (shapes read by src/unnamed/part_002)

The network is modelled at the HTTP-response level: every dispatched
request yields a response with a numeric status and an already-parsed
JSON body.  `respOk` embeds the `Response.ok` predicate of `fetch`. -/

def respOk (status : Nat) : Bool :=
  200 ≤ status && status < 300

/-- Conditions raised by CommentSource (`throw new Error(...)`). -/
inductive ScanError where
  | quotaExceeded
  | networkError
deriving DecidableEq, Repr

/-- Comment-resource snippet as read by `mapApiCommentToLocal`;
`totalReplyCount` is optional because the remote comment resource may
omit it (the code applies `|| 0`). -/
structure ApiSnippet where
  authorDisplayName : String
  authorProfileImageUrl : String
  textDisplay : String
  textOriginal : String
  likeCount : Nat
  totalReplyCount : Option Nat
  publishedAt : String
deriving DecidableEq, Repr

/-- Remote comment resource (`item.id` / `item.snippet`). -/
structure ApiComment where
  id : String
  snippet : ApiSnippet
deriving DecidableEq, Repr

/-- One element of `data.items` of a commentThreads response:
`item.snippet.topLevelComment` plus the optional `item.replies.comments`
inline list (at most 5 replies are inlined by the remote service). -/
structure ApiThreadItem where
  topLevelComment : ApiComment
  replies : Option (List ApiComment)
deriving DecidableEq, Repr

/-- Shallow embedding of `mapApiCommentToLocal`.  `itemReplies` is the
`item.replies` field of the JS object passed in; remote comment
resources carry none, so every call site passes `none` — the branch is
kept because the source reads it for the replyCount fallback. -/
def mapApiCommentToLocal (item : ApiComment) (itemReplies : Option (List ApiComment))
    (videoId : String) (parentId : Option String) : Comment :=
  let snippet := item.snippet
  let analysis := analyzeComment snippet.textOriginal.toList
  { id := item.id
    parentId := parentId
    videoId := videoId
    authorName := snippet.authorDisplayName
    authorProfileImageUrl := snippet.authorProfileImageUrl
    textDisplay := snippet.textDisplay
    textOriginal := snippet.textOriginal
    likeCount := snippet.likeCount
    replyCount :=
      match itemReplies with
      | some rs => rs.length
      | none => snippet.totalReplyCount.getD 0
    publishedAt := snippet.publishedAt
    isSuperThanks := false
    isPinned := false
    repliesFetched := false
    score := analysis.score }

/-- Number of replies inlined in a thread response item. -/
def inlinedRepliesCount (it : ApiThreadItem) : Nat :=
  match it.replies with
  | some rs => rs.length
  | none => 0

/-- Body of the per-item loop of `fetchCommentThreads`: the mapped
top-level comment (its `repliesFetched` flag raised exactly when the
inline replies cover its replyCount) followed by the mapped inline
replies.  The JS pushes the object before mutating the flag; the array
holds a reference, so the stored row carries the final flag value. -/
def processThreadItem (it : ApiThreadItem) (videoId : String) : List Comment :=
  let top0 := mapApiCommentToLocal it.topLevelComment none videoId none
  match it.replies with
  | some rs =>
    let top := if rs.length ≥ top0.replyCount then { top0 with repliesFetched := true } else top0
    top :: rs.map (fun r => mapApiCommentToLocal r none videoId (some top0.id))
  | none => [top0]

/-- Parsed body plus status of one commentThreads page response. -/
structure ThreadsResponse where
  status : Nat
  items : List ApiThreadItem
  nextPageToken : Option String
deriving DecidableEq, Repr

/-- Shallow embedding of one `fetchCommentThreads` request: a forbidden
status raises QuotaExceeded, any other non-success status raises
NetworkError, otherwise the mapped rows to upsert and the continuation
token are produced (`data.nextPageToken || null`). -/
def fetchCommentThreadsOnce (videoId : String) (resp : ThreadsResponse) :
    Except ScanError (List Comment × Option String) :=
  if resp.status = 403 then .error .quotaExceeded
  else if !respOk resp.status then .error .networkError
  else .ok ((resp.items.map (fun it => processThreadItem it videoId)).flatten, resp.nextPageToken)

/-- One page response of the comments (reply-listing) endpoint. -/
structure ReplyPage where
  status : Nat
  items : List ApiComment
  nextPageToken : Option String
deriving DecidableEq, Repr

/-- The pagination loop of `fetchReplies` over the successive responses
the network returns: pages are consumed until the token chain ends or a
non-success response silently breaks the loop; the rows bulk-upserted
along the way are accumulated. -/
def fetchRepliesLoop (parentId videoId : String) : List ReplyPage → List Comment
  | [] => []
  | p :: rest =>
    if !respOk p.status then []
    else
      let replies := p.items.map (fun it => mapApiCommentToLocal it none videoId (some parentId))
      match p.nextPageToken with
      | none => replies
      | some _ => replies ++ fetchRepliesLoop parentId videoId rest

/-- Outcome of one `fetchReplies` run: the rows upserted and whether the
parent row was updated with `repliesFetched = true`. -/
structure FetchRepliesResult where
  upserted : List Comment
  parentMarkedRepliesFetched : Bool
deriving DecidableEq, Repr

/-- Shallow embedding of `fetchReplies`: the loop runs, then the parent
is unconditionally marked `repliesFetched = true`; no condition is ever
raised (a non-success page merely breaks the loop). -/
def fetchReplies (parentId videoId : String) (pages : List ReplyPage) :
    Except ScanError FetchRepliesResult :=
  .ok ⟨fetchRepliesLoop parentId videoId pages, true⟩

/-- Parsed body plus status of a videos.list response; `items` is empty
both for an unknown video and for an error body without `items`. -/
structure VideoItem where
  title : String
  thumbnailUrl : String
  commentCount : Option Nat
deriving DecidableEq, Repr

structure VideoListResponse where
  status : Nat
  items : List VideoItem
deriving DecidableEq, Repr

/-- Shallow embedding of `fetchVideoDetails`: the HTTP status is never
inspected; an absent or empty `items` maps to `none`, otherwise the
metadata row replacing the stored one is produced.  `now` stands for
`Date.now()`. -/
def fetchVideoDetails (videoId : String) (resp : VideoListResponse) (now : Nat) :
    Except ScanError (Option VideoMetadata) :=
  .ok <|
    match resp.items with
    | [] => none
    | item :: _ =>
      some
        { videoId := videoId
          title := item.title
          thumbnailUrl := item.thumbnailUrl
          totalComments := item.commentCount.getD 0
          lastScanned := now
          scanStatus := .idle }

/-! ### RequestQueue (src/unnamed/part_002, lines 29-61)

`processQueue` drains the queue one task at a time, awaiting each task
and then a fixed `delay(250)` before dispatching the next.  The drain is
modelled on the time axis: given the tasks' durations, `queueSchedule`
yields each task's (start, finish) instants in dispatch order. -/

def queueSchedule (now : Nat) : List Nat → List (Nat × Nat)
  | [] => []
  | d :: rest => (now, now + d) :: queueSchedule (now + d + 250) rest

/-- Schedule of a queue drained from time 0 with the enqueued tasks'
durations in FIFO order. -/
def runQueue (durations : List Nat) : List (Nat × Nat) :=
  queueSchedule 0 durations

/-! ### ScanController (src/components/Dashboard.tsx) -/

/-- The `setStats` call opening `handleSmartScan` (line 63): status
running, mode smart, error cleared, every other field kept. -/
def smartStartStats (s : ScanStats) : ScanStats :=
  { s with status := .running, mode := some .smart, error := none }

/-- The `setStats` call opening `handleDeepScan` (line 113): status
running, mode deep, every other field — the error included — kept. -/
def deepStartStats (s : ScanStats) : ScanStats :=
  { s with status := .running, mode := some .deep }

/-- Embedding of `stopScan` (lines 145-149): raises the cancellation flag and sets
the status to paused. -/
def stopScan (s : ScanStats) : ScanStats :=
  { s with status := .paused }

/-- Abstraction of one thread page as seen by the smart-scan loop: how
many promising threads the post-page query returns and whether a
continuation token was present. -/
structure SmartPage where
  promising : Nat
  hasNext : Bool
deriving DecidableEq, Repr

/-- The inner promising-thread loop: before each `fetchReplies` the
cancellation flag is polled; each expansion is one queued network call.
`cancelAfter` is the number of settled calls after which the flag reads
true; `calls` the number of calls made so far. -/
def expandCalls (cancelAfter : Nat) : Nat → Nat → Nat
  | calls, 0 => calls
  | calls, n + 1 => if cancelAfter ≤ calls then calls else expandCalls cancelAfter (calls + 1) n

/-- The `while (pageToken !== null && !cancelScanRef.current)` loop of
`handleSmartScan`: each iteration makes one thread-page call and then
expands the promising threads; the count of network calls is returned. -/
def smartLoopCalls (cancelAfter : Nat) : List SmartPage → Nat → Nat
  | [], calls => calls
  | p :: rest, calls =>
    if cancelAfter ≤ calls then calls
    else
      let c1 := expandCalls cancelAfter (calls + 1) p.promising
      if p.hasNext then smartLoopCalls cancelAfter rest c1 else c1

/-- Shallow embedding of a full `handleSmartScan` run on its success
path: the opening `setStats`, the loop, and the closing
`setStats(status := complete)` that runs whether or not the run was
cancelled; returns the final stats and the network calls made. -/
def smartScanRun (pages : List SmartPage) (cancelAfter : Nat) (s : ScanStats) :
    ScanStats × Nat :=
  let s1 := smartStartStats s
  let calls := smartLoopCalls cancelAfter pages 0
  ({ s1 with status := .complete }, calls)

/-! ### LocalStore candidate query (src/components/Dashboard.tsx, lines 32-39)

`db.comments.where([videoId+score]).between([vid,1],[vid,100],true,true)
.reverse().sortBy(score)`: rows of the requested video with score in
the inclusive range [1,100], sorted by score in descending order. -/

def candidateFilter (vid : String) (c : Comment) : Bool :=
  c.videoId == vid && 1 ≤ c.score && c.score ≤ 100

/-- Insertion step of a descending-by-score sort. -/
def insertScoreDesc (c : Comment) : List Comment → List Comment
  | [] => [c]
  | d :: rest => if d.score < c.score then c :: d :: rest else d :: insertScoreDesc c rest

/-- Descending-by-score sort (the order Dexie's reversed index + sortBy
delivers). -/
def sortScoreDesc (l : List Comment) : List Comment :=
  l.foldr insertScoreDesc []

/-- The candidates live query: matching rows of the requested container,
score within [1,100], in descending score order — the collection carries
no result-count limit. -/
def candidates (rows : List Comment) (vid : String) : List Comment :=
  sortScoreDesc (rows.filter (candidateFilter vid))


/-! ### Helper lemmas about the character-run scanners -/

theorem nl_imp_ws {c : Char} (h : isNlCh c = true) : isWsCh c = true := by
  simp only [isNlCh, Bool.or_eq_true, decide_eq_true_eq] at h
  simp only [isWsCh, Bool.or_eq_true, decide_eq_true_eq, Bool.and_eq_true]
  omega

theorem sep_not_ws {c : Char} (h : isSepCh c = true) : isWsCh c = false := by
  simp only [isSepCh, Bool.or_eq_true, decide_eq_true_eq] at h
  rcases h with (h | h) | h <;> subst h <;> decide

theorem countWs_take_ws (t : List Char) : ∀ x ∈ t.take (countWs t), isWsCh x = true := by
  induction t with
  | nil => simp
  | cons c r ih =>
    by_cases h : isWsCh c = true
    · simp only [countWs, h, if_true, List.take_succ_cons, List.mem_cons]
      rintro x (rfl | hx)
      · exact h
      · exact ih x hx
    · simp [countWs, h]

theorem countWs_drop_head {t : List Char} {c : Char} {r : List Char}
    (h : t.drop (countWs t) = c :: r) : isWsCh c = false := by
  induction t with
  | nil => simp at h
  | cons a s ih =>
    by_cases ha : isWsCh a = true
    · simp only [countWs, ha, if_true, List.drop_succ_cons] at h
      exact ih h
    · simp only [countWs, ha, if_false, List.drop_zero] at h
      cases h
      simpa using ha

theorem countWs_drop_nil_all_ws {t : List Char}
    (h : t.drop (countWs t) = []) : ∀ x ∈ t, isWsCh x = true := by
  induction t with
  | nil => simp
  | cons a s ih =>
    by_cases ha : isWsCh a = true
    · simp only [countWs, ha, if_true, List.drop_succ_cons] at h
      intro x hx
      rcases List.mem_cons.mp hx with rfl | hx2
      · exact ha
      · exact ih h x hx2
    · simp [countWs, ha] at h

theorem countWs_append_of_ws {u : List Char} (hu : ∀ x ∈ u, isWsCh x = true)
    {a : Char} (ha : isWsCh a = false) (r : List Char) :
    countWs (u ++ a :: r) = u.length := by
  induction u with
  | nil => simp [countWs, ha]
  | cons b s ih =>
    have hb : isWsCh b = true := hu b (by simp)
    have ih2 := ih (fun x hx => hu x (by simp [hx]))
    simp only [List.cons_append, countWs, hb, if_true, List.length_cons]
    show countWs (s ++ a :: r) + 1 = s.length + 1
    rw [ih2]

theorem lastNonNlIdx_spec {t : List Char} {j : Nat}
    (h : lastNonNlIdx t = some j) :
    ∃ c r, t.drop j = c :: r ∧ isNlCh c = false := by
  induction t generalizing j with
  | nil => simp [lastNonNlIdx] at h
  | cons a s ih =>
    rcases hs : lastNonNlIdx s with _ | k
    · rw [lastNonNlIdx, hs] at h
      cases ha : isNlCh a with
      | true => simp [ha] at h
      | false =>
        simp only [ha] at h
        simp only [Bool.false_eq_true, if_false, Option.some.injEq] at h
        subst h
        exact ⟨a, s, rfl, ha⟩
    · rw [lastNonNlIdx, hs] at h
      cases h
      obtain ⟨c, r, hd, hc⟩ := ih hs
      exact ⟨c, r, by simpa using hd, hc⟩

theorem lastNonNlIdx_isSome_of_mem {t : List Char} {x : Char}
    (hx : x ∈ t) (hnl : isNlCh x = false) :
    ∃ j, lastNonNlIdx t = some j := by
  induction t with
  | nil => simp at hx
  | cons a s ih =>
    rcases hs : lastNonNlIdx s with _ | k
    · rcases List.mem_cons.mp hx with rfl | hx2
      · rw [lastNonNlIdx, hs]
        simp [hnl]
      · obtain ⟨j, hj⟩ := ih hx2
        rw [hj] at hs
        cases hs
    · exact ⟨k + 1, by rw [lastNonNlIdx, hs]⟩

/-! ### C8 — RequestQueue FIFO order and minimum dispatch spacing -/

theorem queueSchedule_length (now : Nat) (ds : List Nat) :
    (queueSchedule now ds).length = ds.length := by
  induction ds generalizing now with
  | nil => rfl
  | cons d rest ih => simp [queueSchedule, ih]

theorem queueSchedule_chain (now : Nat) (ds : List Nat) :
    List.Chain' (fun a b : Nat × Nat => a.2 ≤ b.1 ∧ a.1 + 250 ≤ b.1)
      (queueSchedule now ds) := by
  induction ds generalizing now with
  | nil => simp [queueSchedule]
  | cons d rest ih =>
    have h2 := ih (now + d + 250)
    cases rest with
    | nil => simp [queueSchedule]
    | cons e rest2 =>
      rw [queueSchedule, queueSchedule]
      rw [queueSchedule] at h2
      exact List.chain'_cons.mpr ⟨⟨by omega, by omega⟩, h2⟩

/-- C8: for every sequence of tasks enqueued on the RequestQueue, every
task is dispatched, execution is one at a time in FIFO order (each task
finishes no later than the next one starts, in enqueue order), and the
starts of consecutive dispatches are at least 250 ms apart. -/
theorem requestQueue_fifo_min_spacing (durations : List Nat) :
    (runQueue durations).length = durations.length ∧
    List.Chain' (fun a b : Nat × Nat => a.2 ≤ b.1 ∧ a.1 + 250 ≤ b.1)
      (runQueue durations) :=
  ⟨queueSchedule_length 0 durations, queueSchedule_chain 0 durations⟩

/-! ### C3 — score range and determinism of analyzeComment -/

/-- C3: for every input text, `analyzeComment` yields a score within
[0, 100], and the function is deterministic — equal input text gives
equal output. -/
theorem analyzeComment_score_in_range (t u : List Char) :
    0 ≤ (analyzeComment t).score ∧ (analyzeComment t).score ≤ 100 ∧
    (t = u → analyzeComment t = analyzeComment u) := by
  refine ⟨Nat.zero_le _, ?_, fun h => by rw [h]⟩
  simp only [analyzeComment]
  exact Nat.min_le_right _ _

theorem analyzeComment_score_in_range_witness :
    0 ≤ (analyzeComment "what?".toList).score ∧
    (analyzeComment "what?".toList).score ≤ 100 ∧
    analyzeComment "what?".toList = analyzeComment "what?".toList :=
  ⟨(analyzeComment_score_in_range "what?".toList "what?".toList).1,
   (analyzeComment_score_in_range "what?".toList "what?".toList).2.1,
   (analyzeComment_score_in_range "what?".toList "what?".toList).2.2 rfl⟩

/-! ### C10 — at most one highlight per kind, in the fixed order -/

/-- Position of a highlight kind in the fixed emission order of
`analyzeComment`: source, then helper, then bracket. -/
def kindRank : HKind → Nat
  | .source => 0
  | .helper => 1
  | .bracket => 2

/-- C10: every analysis yields at most 3 highlights, and their kinds are
strictly increasing in the fixed order source, helper, bracket — in
particular at most one highlight per kind, with any source highlight
first, any helper highlight next and any bracket highlight last. -/
theorem analyzeComment_highlights_ordered (t : List Char) :
    (analyzeComment t).highlights.length ≤ 3 ∧
    List.Pairwise (fun a b => kindRank a.kind < kindRank b.kind)
      (analyzeComment t).highlights := by
  rcases h1 : findSrc t with _ | s <;> rcases h2 : findHelp t with _ | u <;>
    rcases h3 : findBr t with _ | v <;>
      simp [analyzeComment, h1, h2, h3, kindRank]

/-! ### C1 — fetchReplies after a failed reply page (code evaluated at
the failing input) -/

/-- A reply-page response whose fetch failed with a server error. -/
def failedReplyPage : ReplyPage := ⟨500, [], none⟩

/-- C1: evaluating `fetchReplies` on a thread whose very first reply
page fails with a non-success status: the failure is swallowed (no
condition reaches the caller, the run continues), yet the parent is
still marked `repliesFetched = true` even though the token chain was
not exhausted. -/
theorem fetchReplies_marks_fetched_despite_failure :
    respOk failedReplyPage.status = false ∧
    fetchReplies "parent" "vid" [failedReplyPage] =
      Except.ok ⟨[], true⟩ := by
  exact ⟨rfl, rfl⟩

/-! ### C7 — failure semantics of the three CommentSource operations -/

/-- C7 counterexample: a forbidden-status (403) reply-page response
raises nothing — `fetchReplies` returns successfully and even marks the
parent fetched — and a forbidden-status metadata response also raises
nothing (`fetchVideoDetails` never inspects the HTTP status and reports
absence instead). -/
theorem fetchReplies_quota_not_raised :
    fetchReplies "parent" "vid" [⟨403, [], none⟩] = Except.ok ⟨[], true⟩ ∧
    fetchVideoDetails "vid" ⟨403, []⟩ 0 = Except.ok none :=
  ⟨rfl, rfl⟩

/-- C7 (amended): only the thread-page fetch raises conditions — a
forbidden status raises QuotaExceeded and any other non-success status
raises NetworkError, without retry; the reply-page fetch never raises
(non-success silently stops its pagination), and the metadata fetch
never raises (the HTTP status is ignored). -/
theorem commentSource_failure_semantics (vid : String) (resp : ThreadsResponse) :
    (resp.status = 403 → fetchCommentThreadsOnce vid resp = .error .quotaExceeded) ∧
    (resp.status ≠ 403 → respOk resp.status = false →
      fetchCommentThreadsOnce vid resp = .error .networkError) ∧
    (∀ parentId vid2 pages, ∃ r, fetchReplies parentId vid2 pages = Except.ok r) ∧
    (∀ vid3 vresp now, ∃ m, fetchVideoDetails vid3 vresp now = Except.ok m) := by
  refine ⟨fun h403 => ?_, fun hne hok => ?_, fun p v pages => ⟨_, rfl⟩, fun v r n => ⟨_, rfl⟩⟩
  · simp [fetchCommentThreadsOnce, h403]
  · simp [fetchCommentThreadsOnce, hne, hok]

theorem commentSource_failure_semantics_witness :
    fetchCommentThreadsOnce "v" ⟨403, [], none⟩ = .error .quotaExceeded ∧
    fetchCommentThreadsOnce "v" ⟨500, [], none⟩ = .error .networkError :=
  ⟨(commentSource_failure_semantics "v" ⟨403, [], none⟩).1 rfl,
   (commentSource_failure_semantics "v" ⟨500, [], none⟩).2.1 (by decide) rfl⟩

/-! ### C6 — what start(mode) actually does to the scan stats -/

/-- Stats of a paused run that has already fetched rows and recorded an
error message. -/
def statsPausedWithError : ScanStats :=
  ⟨5, 0, .paused, some .smart, some "boom"⟩

/-- C6 counterexample: starting a smart scan from a paused state with
fetchedCount 5 keeps fetchedCount at 5 (no reset to 0), and starting a
deep scan keeps the stored error message (no clearing). -/
theorem start_keeps_fetchedCount_and_deep_keeps_error :
    (smartStartStats statsPausedWithError).fetchedCount = 5 ∧
    (deepStartStats statsPausedWithError).error = some "boom" :=
  ⟨rfl, rfl⟩

/-- C6 (amended): from any state, starting a scan puts the status to
running and sets the mode; the smart start clears the error message but
leaves fetchedCount unchanged, and the deep start leaves both the error
message and fetchedCount unchanged. -/
theorem start_transition_effects (s : ScanStats) :
    (smartStartStats s).status = .running ∧
    (smartStartStats s).mode = some .smart ∧
    (smartStartStats s).error = none ∧
    (smartStartStats s).fetchedCount = s.fetchedCount ∧
    (deepStartStats s).status = .running ∧
    (deepStartStats s).mode = some .deep ∧
    (deepStartStats s).error = s.error ∧
    (deepStartStats s).fetchedCount = s.fetchedCount :=
  ⟨rfl, rfl, rfl, rfl, rfl, rfl, rfl, rfl⟩

/-! ### C5 — cancellation during a smart scan -/

/-- Initial transient stats of a fresh Dashboard. -/
def initialStats : ScanStats := ⟨0, 0, .idle, none, none⟩

/-- A three-page crawl with no promising threads. -/
def cancelDemoPages : List SmartPage := [⟨0, true⟩, ⟨0, true⟩, ⟨0, false⟩]

/-- C5: evaluating a smart-scan run cancelled after its first settled
network call: the loop indeed dispatches no further call (1 of the 3
page fetches happens), `stopScan` sets the status to paused — but when
the cancelled loop unwinds, the run unconditionally sets the status to
complete, so the cancelled run does move the state to complete. -/
theorem cancelled_smartScan_sets_complete :
    (smartScanRun cancelDemoPages 1 initialStats).1.status = ScanStatus.complete ∧
    (smartScanRun cancelDemoPages 1 initialStats).2 = 1 ∧
    smartLoopCalls 1000 cancelDemoPages 0 = 3 ∧
    (stopScan (smartStartStats initialStats)).status = ScanStatus.paused := by
  refine ⟨rfl, by decide, by decide, rfl⟩

/-! ### C2 — repliesFetched of a freshly mapped thread page -/

/-- C2: in a fetched thread page, the mapped top-level comment of an
item carries `repliesFetched = true` only if the number of replies
inlined in the response for that thread is at least the comment's
reported total reply count; otherwise the flag stays false. -/
theorem repliesFetched_only_if_inlined_covers (it : ApiThreadItem) (videoId : String)
    (c : Comment) (hc : (processThreadItem it videoId).head? = some c)
    (hf : c.repliesFetched = true) :
    c.parentId = none ∧ inlinedRepliesCount it ≥ c.replyCount := by
  rcases hr : it.replies with _ | rs
  · rw [processThreadItem, hr] at hc
    simp only [List.head?_cons, Option.some.injEq] at hc
    subst hc
    simp [mapApiCommentToLocal] at hf
  · rw [processThreadItem, hr] at hc
    simp only [List.head?_cons, Option.some.injEq] at hc
    by_cases hcov :
        rs.length ≥ (mapApiCommentToLocal it.topLevelComment none videoId none).replyCount
    · rw [if_pos hcov] at hc
      subst hc
      exact ⟨rfl, by simpa [inlinedRepliesCount, hr] using hcov⟩
    · rw [if_neg hcov] at hc
      subst hc
      simp [mapApiCommentToLocal] at hf

/-- A concrete thread item: one reported reply, one inline reply. -/
def demoSnippet (text : String) (total : Option Nat) : ApiSnippet :=
  ⟨"author", "avatar", text, text, 0, total, "2024-01-01"⟩

def demoThreadItem : ApiThreadItem :=
  ⟨⟨"top1", demoSnippet "who knows" (some 1)⟩,
   some [⟨"rep1", demoSnippet "source: X" none⟩]⟩

theorem repliesFetched_only_if_inlined_covers_witness :
    ((processThreadItem demoThreadItem "vid").head? =
        some (mapApiCommentToLocal demoThreadItem.topLevelComment none "vid" none
                |> fun c => { c with repliesFetched := true })) ∧
    ∀ c, (processThreadItem demoThreadItem "vid").head? = some c →
      c.repliesFetched = true →
      c.parentId = none ∧ inlinedRepliesCount demoThreadItem ≥ c.replyCount := by
  refine ⟨by decide, fun c hc hf => repliesFetched_only_if_inlined_covers demoThreadItem "vid" c hc hf⟩

/-! ### C9 — the candidate-ranking query -/

theorem mem_insertScoreDesc {x c : Comment} {l : List Comment} :
    x ∈ insertScoreDesc c l ↔ x = c ∨ x ∈ l := by
  induction l with
  | nil => simp [insertScoreDesc]
  | cons d rest ih =>
    by_cases h : d.score < c.score
    · simp [insertScoreDesc, h]
    · simp only [insertScoreDesc, if_neg h, List.mem_cons, ih]
      tauto

theorem mem_sortScoreDesc {x : Comment} {l : List Comment} :
    x ∈ sortScoreDesc l ↔ x ∈ l := by
  induction l with
  | nil => simp [sortScoreDesc]
  | cons c rest ih =>
    show x ∈ insertScoreDesc c (sortScoreDesc rest) ↔ _
    rw [mem_insertScoreDesc]
    simp [ih]

theorem length_insertScoreDesc (c : Comment) (l : List Comment) :
    (insertScoreDesc c l).length = l.length + 1 := by
  induction l with
  | nil => rfl
  | cons d rest ih =>
    by_cases h : d.score < c.score
    · simp [insertScoreDesc, h]
    · simp [insertScoreDesc, h, ih]

theorem length_sortScoreDesc (l : List Comment) :
    (sortScoreDesc l).length = l.length := by
  induction l with
  | nil => rfl
  | cons c rest ih =>
    show (insertScoreDesc c (sortScoreDesc rest)).length = _
    rw [length_insertScoreDesc, ih, List.length_cons]

theorem pairwise_insertScoreDesc {c : Comment} {l : List Comment}
    (h : l.Pairwise (fun a b => b.score ≤ a.score)) :
    (insertScoreDesc c l).Pairwise (fun a b => b.score ≤ a.score) := by
  induction l with
  | nil => simp [insertScoreDesc]
  | cons d rest ih =>
    rw [List.pairwise_cons] at h
    by_cases hlt : d.score < c.score
    · rw [insertScoreDesc, if_pos hlt]
      refine List.pairwise_cons.mpr ⟨?_, List.pairwise_cons.mpr h⟩
      intro x hx
      rcases List.mem_cons.mp hx with rfl | hx2
      · omega
      · have := h.1 x hx2
        omega
    · rw [insertScoreDesc, if_neg hlt]
      refine List.pairwise_cons.mpr ⟨?_, ih h.2⟩
      intro x hx
      rcases mem_insertScoreDesc.mp hx with rfl | hx2
      · omega
      · exact h.1 x hx2

theorem pairwise_sortScoreDesc (l : List Comment) :
    (sortScoreDesc l).Pairwise (fun a b => b.score ≤ a.score) := by
  induction l with
  | nil => simp [sortScoreDesc]
  | cons c rest ih => exact pairwise_insertScoreDesc ih

/-- C9 (amended): the candidates query returns only comments of the
requested container with score within [1, 100] — never a comment with
score ≤ 0 — sorted in descending score order; the query itself imposes
no result-count bound. -/
theorem candidates_filtered_sorted (rows : List Comment) (vid : String) :
    (∀ c, c ∈ candidates rows vid → c.videoId = vid ∧ 1 ≤ c.score ∧ c.score ≤ 100) ∧
    (candidates rows vid).Pairwise (fun a b => b.score ≤ a.score) := by
  constructor
  · intro c hc
    have hmem := mem_sortScoreDesc.mp hc
    have hfil := List.mem_filter.mp hmem
    have hp := hfil.2
    simp only [candidateFilter, Bool.and_eq_true, beq_iff_eq, decide_eq_true_eq] at hp
    exact ⟨hp.1.1, hp.1.2, hp.2⟩
  · exact pairwise_sortScoreDesc _

def demoCandidate : Comment :=
  ⟨"c1", none, "v", "a", "p", "t", "t", 0, 0, "d", false, false, false, 80⟩

theorem candidates_filtered_sorted_witness :
    demoCandidate ∈ candidates [demoCandidate] "v" ∧
    demoCandidate.videoId = "v" ∧ 1 ≤ demoCandidate.score ∧ demoCandidate.score ≤ 100 :=
  ⟨by decide,
   (candidates_filtered_sorted [demoCandidate] "v").1 demoCandidate (by decide)⟩

/-- A table of 101 matching rows in container `v`. -/
def rows101 : List Comment :=
  (List.range 101).map fun n =>
    ⟨toString n, none, "v", "a", "p", "t", "t", 0, 0, "d", false, false, false, 1 + n % 100⟩

/-- C9 counterexample: the candidates query carries no caller-supplied
result-count bound — on a store holding 101 matching rows it returns all
101 of them, exceeding every bound the system's other queries use
(100 and 50). -/
theorem candidates_have_no_result_bound :
    (candidates rows101 "v").length = 101 := by
  rw [candidates, length_sortScoreDesc]
  have hall : rows101.filter (candidateFilter "v") = rows101 := by
    rw [List.filter_eq_self]
    intro a ha
    obtain ⟨n, hn, rfl⟩ := List.mem_map.mp ha
    have hlt : n % 100 < 100 := Nat.mod_lt n (by omega)
    simp only [candidateFilter, Bool.and_eq_true, beq_iff_eq, decide_eq_true_eq]
    refine ⟨⟨trivial, by omega⟩, by omega⟩
  rw [hall, rows101, List.length_map, List.length_range]

/-! ### C4 — characterization of the SOURCE heuristic -/

/-- Declarative shape recognised by the SOURCE pattern anchored at the
head of the text: a vocabulary label (up to ASCII case), optional
whitespace, a separator from `[:=-]`, then optional whitespace followed
by at least one character acceptable to `.`. -/
def LocalSourceShape (t : List Char) : Prop :=
  ∃ lbl u sep v c rest,
    t = lbl ++ (u ++ sep :: (v ++ c :: rest)) ∧
    lbl.map lowerCh ∈ srcLabels ∧
    (∀ x ∈ u, isWsCh x = true) ∧
    isSepCh sep = true ∧
    (∀ x ∈ v, isWsCh x = true) ∧
    isNlCh c = false

/-- Declarative firing condition of the SOURCE heuristic: the shape
occurs at some position of the text. -/
def SourceShape (t : List Char) : Prop :=
  ∃ n, LocalSourceShape (t.drop n)

theorem findLabel_sound {Ls : List (List Char)} {t L : List Char}
    (h : findLabel Ls t = some L) : ciAtB L t = true ∧ L ∈ Ls := by
  induction Ls with
  | nil => cases h
  | cons A As ih =>
    rw [findLabel] at h
    by_cases hA : ciAtB A t = true
    · rw [if_pos hA] at h
      cases h
      exact ⟨hA, by simp⟩
    · rw [if_neg hA] at h
      obtain ⟨h1, h2⟩ := ih h
      exact ⟨h1, by simp [h2]⟩

theorem findLabel_isSome_of {Ls : List (List Char)} {t L0 : List Char}
    (hci : ciAtB L0 t = true) (hm : L0 ∈ Ls) :
    ∃ L, findLabel Ls t = some L := by
  induction Ls with
  | nil => simp at hm
  | cons A As ih =>
    by_cases hA : ciAtB A t = true
    · exact ⟨A, by rw [findLabel, if_pos hA]⟩
    · rcases List.mem_cons.mp hm with rfl | hm2
      · exact absurd hci hA
      · obtain ⟨L, hL⟩ := ih hm2
        exact ⟨L, by rw [findLabel, if_neg hA]; exact hL⟩

theorem ciAtB_take_of_le {L1 L2 t : List Char} (h1 : ciAtB L1 t = true)
    (h2 : ciAtB L2 t = true) (hle : L1.length ≤ L2.length) :
    L1 = L2.take L1.length := by
  simp only [ciAtB, decide_eq_true_eq] at h1 h2
  have : L2.take L1.length = (t.take L1.length).map lowerCh := by
    rw [h2, ← List.map_take, List.take_take, Nat.min_eq_left hle]
  rw [this, ← h1]

/-- Two vocabulary labels matching at the same position coincide: no
label of the alternation is a proper initial segment of another. -/
theorem ciAtB_unique {L1 L2 t : List Char} (h1 : ciAtB L1 t = true)
    (h2 : ciAtB L2 t = true) (m1 : L1 ∈ srcLabels) (m2 : L2 ∈ srcLabels) :
    L1 = L2 := by
  have hlab : ∀ A ∈ srcLabels, ∀ B ∈ srcLabels, A = B.take A.length → A = B := by
    decide
  rcases Nat.le_total L1.length L2.length with hle | hle
  · exact hlab L1 m1 L2 m2 (ciAtB_take_of_le h1 h2 hle)
  · exact (hlab L2 m2 L1 m1 (ciAtB_take_of_le h2 h1 hle)).symm

theorem srcTail_some_decomp {t2 : List Char} {j g : Nat}
    (h : srcTail t2 = some (j, g)) :
    ∃ v c rest, t2 = v ++ c :: rest ∧ (∀ x ∈ v, isWsCh x = true) ∧
      isNlCh c = false := by
  rcases hd : t2.drop (countWs t2) with _ | ⟨d, tl⟩
  · simp only [srcTail, hd] at h
    rcases h3 : lastNonNlIdx t2 with _ | j2
    · simp [h3] at h
    · obtain ⟨c, r, hdr, hc⟩ := lastNonNlIdx_spec h3
      refine ⟨t2.take j2, c, r, ?_, ?_, hc⟩
      · conv_lhs => rw [← List.take_append_drop j2 t2]
        rw [hdr]
      · intro x hx
        exact countWs_drop_nil_all_ws hd x (List.mem_of_mem_take hx)
  · refine ⟨t2.take (countWs t2), d, tl, ?_, countWs_take_ws t2, ?_⟩
    · conv_lhs => rw [← List.take_append_drop (countWs t2) t2]
      rw [hd]
    · have hws := countWs_drop_head hd
      cases hnl : isNlCh d with
      | false => rfl
      | true =>
        rw [nl_imp_ws hnl] at hws
        cases hws

theorem srcTail_isSome {v : List Char} {c : Char} {rest : List Char}
    (_hv : ∀ x ∈ v, isWsCh x = true) (hc : isNlCh c = false) :
    (srcTail (v ++ c :: rest)).isSome = true := by
  rcases hd : (v ++ c :: rest).drop (countWs (v ++ c :: rest)) with _ | ⟨d, tl⟩
  · obtain ⟨j, hj⟩ :=
      lastNonNlIdx_isSome_of_mem (show c ∈ v ++ c :: rest by simp) hc
    simp [srcTail, hd, hj]
  · simp [srcTail, hd]

theorem trySourceAt_some_shape {t : List Char} {m : List Char × List Char}
    (h : trySourceAt t = some m) : LocalSourceShape t := by
  rcases hL : findLabel srcLabels t with _ | L
  · simp [trySourceAt, hL] at h
  · obtain ⟨hci, hmem⟩ := findLabel_sound hL
    simp only [trySourceAt, hL] at h
    rcases hd : (t.drop L.length).drop (countWs (t.drop L.length)) with _ | ⟨sep, t2⟩
    · simp only [hd] at h
      cases h
    · simp only [hd] at h
      by_cases hsep : isSepCh sep = true
      · rw [if_pos hsep] at h
        rcases hst : srcTail t2 with _ | ⟨j, g⟩
        · rw [hst] at h
          cases h
        · obtain ⟨v, c, rest, ht2, hv, hc⟩ := srcTail_some_decomp hst
          refine ⟨t.take L.length, (t.drop L.length).take (countWs (t.drop L.length)),
            sep, v, c, rest, ?_, ?_, countWs_take_ws _, hsep, hv, hc⟩
          · conv_lhs => rw [← List.take_append_drop L.length t]
            congr 1
            conv_lhs => rw [← List.take_append_drop (countWs (t.drop L.length)) (t.drop L.length)]
            rw [hd, ht2]
          · simp only [ciAtB, decide_eq_true_eq] at hci
            rw [← hci]
            exact hmem
      · rw [if_neg hsep] at h
        cases h

theorem localShape_trySourceAt {t : List Char} (h : LocalSourceShape t) :
    (trySourceAt t).isSome = true := by
  obtain ⟨lbl, u, sep, v, c, rest, ht, hmem, hu, hsep, hv, hc⟩ := h
  have htake : t.take lbl.length = lbl := by
    rw [ht]
    exact List.take_left lbl _
  have hci : ciAtB (lbl.map lowerCh) t = true := by
    simp only [ciAtB, decide_eq_true_eq, List.length_map, htake]
  obtain ⟨L, hfind⟩ := findLabel_isSome_of hci hmem
  obtain ⟨hciL, hmemL⟩ := findLabel_sound hfind
  have hLeq : L = lbl.map lowerCh := ciAtB_unique hciL hci hmemL hmem
  subst hLeq
  have h1 : t.drop lbl.length = u ++ sep :: (v ++ c :: rest) := by
    rw [ht]
    exact List.drop_left lbl _
  have hk : countWs (u ++ sep :: (v ++ c :: rest)) = u.length :=
    countWs_append_of_ws hu (sep_not_ws hsep) _
  have h3 : countWs (t.drop lbl.length) = u.length := by
    rw [h1]
    exact hk
  have hdrop2 : (u ++ sep :: (v ++ c :: rest)).drop u.length = sep :: (v ++ c :: rest) :=
    List.drop_left u _
  have hsome := @srcTail_isSome v c rest hv hc
  rcases hst : srcTail (v ++ c :: rest) with _ | ⟨j, g⟩
  · rw [hst] at hsome
    cases hsome
  · simp only [trySourceAt, hfind, List.length_map]
    rw [h3, h1, hdrop2]
    simp [hsep, hst]

theorem findSrc_isSome_iff (t : List Char) :
    (findSrc t).isSome = true ↔ SourceShape t := by
  induction t with
  | nil =>
    constructor
    · intro h
      exact absurd h (by decide)
    · rintro ⟨n, lbl, u, sep, v, c, rest, ht, -⟩
      rw [List.drop_nil] at ht
      exact absurd ht.symm (by simp)
  | cons a r ih =>
    rcases htry : trySourceAt (a :: r) with _ | m
    · have hfs : findSrc (a :: r) = (findSrc r).map (fun x => (x.1 + 1, x.2)) := by
        simp only [findSrc, htry]
      have hmap : ((findSrc r).map (fun x => (x.1 + 1, x.2))).isSome = (findSrc r).isSome := by
        cases findSrc r <;> rfl
      rw [hfs, hmap, ih]
      constructor
      · rintro ⟨n, hn⟩
        exact ⟨n + 1, by simpa using hn⟩
      · rintro ⟨n, hn⟩
        cases n with
        | zero =>
          exfalso
          have hx := localShape_trySourceAt (by simpa using hn)
          rw [htry] at hx
          cases hx
        | succ n2 => exact ⟨n2, by simpa using hn⟩
    · have hfs : findSrc (a :: r) = some (0, m) := by
        simp only [findSrc, htry]
      rw [hfs]
      simp only [Option.isSome_some, true_iff]
      exact ⟨0, by simpa using trySourceAt_some_shape htry⟩

theorem source_highlight_iff (t : List Char) :
    ((analyzeComment t).highlights.any fun h => h.kind == HKind.source) =
      (findSrc t).isSome := by
  rcases h1 : findSrc t with _ | s <;> rcases h2 : findHelp t with _ | u <;>
    rcases h3 : findBr t with _ | v <;>
      simp [analyzeComment, h1, h2, h3]

/-- Stated from the claim's words (C4): a "label: value" shape whose
label is one of the fixed vocabulary name/source/title/track/song/movie/
anime, case-insensitively, with optional whitespace around the colon and
a nonempty value. -/
def claimLabels : List (List Char) :=
  ["name".toList, "source".toList, "title".toList, "track".toList,
   "song".toList, "movie".toList, "anime".toList]

def claimSourceAt (t : List Char) : Bool :=
  claimLabels.any fun L =>
    ciAtB L t &&
      (let t1 := t.drop L.length
       match t1.drop (countWs t1) with
       | ':' :: t2 => !((t2.drop (countWs t2)).isEmpty)
       | _ => false)

def claimSourceFires : List Char → Bool
  | [] => claimSourceAt []
  | c :: r => claimSourceAt (c :: r) || claimSourceFires r

/-- C4 counterexample: the text "sauce:x" fires the source heuristic
(+80 with a source highlight) although it matches no "label: value"
shape over the claim's vocabulary; and on "title: t" the source
highlight spans [0,1) — the first character of the label — rather than
the captured value "t" at [7,8). -/
theorem source_heuristic_claim_counterexample :
    (claimSourceFires "sauce:x".toList = false ∧
      80 ≤ (analyzeComment "sauce:x".toList).score ∧
      (analyzeComment "sauce:x".toList).highlights = [⟨6, 7, .source⟩]) ∧
    (claimSourceFires "title: t".toList = true ∧
      (analyzeComment "title: t".toList).highlights = [⟨0, 1, .source⟩]) := by
  decide

/-- C4 (amended): the source heuristic fires exactly when the text
contains, at some position, a label of the vocabulary name/source/sauce/
anime/movie/title/track/song (case-insensitive) followed by optional
whitespace, a separator `:`, `=` or `-`, optional whitespace and at
least one character matchable by `.`; when it fires it contributes +80
(the final score is at least 80) and emits a highlight of kind source;
on `"source: My Anime Name"` the score is 80 and the single source
highlight covers exactly the value `"My Anime Name"`. -/
theorem source_heuristic_characterization :
    (∀ t : List Char,
        ((analyzeComment t).highlights.any fun h => h.kind == HKind.source) = true ↔
          SourceShape t) ∧
    (∀ t : List Char, SourceShape t → 80 ≤ (analyzeComment t).score) ∧
    analyzeComment "source: My Anime Name".toList = ⟨80, [⟨8, 21, .source⟩]⟩ := by
  refine ⟨fun t => by rw [source_highlight_iff]; exact findSrc_isSome_iff t,
    fun t hs => ?_, by decide⟩
  have hsome : (findSrc t).isSome = true := (findSrc_isSome_iff t).mpr hs
  simp only [analyzeComment, hsome, if_true]
  omega

theorem source_heuristic_characterization_witness :
    80 ≤ (analyzeComment "source: My Anime Name".toList).score :=
  source_heuristic_characterization.2.1 "source: My Anime Name".toList
    ⟨0, "source".toList, [], ':', [' '], 'M', "y Anime Name".toList, by decide⟩

end SrcHunter
